import Mathlib

/-!
A verification model of the YouLess SE Node-RED node (src/youless-se.js):
the discovery prober and orchestrator, the LS120 fetcher, the recursive
numeric normalizer and the polling lifecycle state machine, together with
theorems settling the specification's claims about them.

Modelling conventions: finite JavaScript numbers are rationals; NaN and
undefined are separate constructors of the JS value type; HTTP calls are
abstracted by passing each call's outcome (transport error or delivered
body) as an argument; asynchronous completion is modelled by deterministic
sequential evaluation.
-/

namespace YouLessSE

/-! JavaScript values as the node manipulates them: undefined, NaN, null,
booleans, finite numbers (as rationals), strings, arrays and plain objects.
Arrays and the ordered key-value fields of objects are the mutually
inductive types JArr and JObj. -/
mutual
inductive JVal : Type where
  | undefined : JVal
  | nan : JVal
  | null : JVal
  | bool (b : Bool) : JVal
  | num (q : ℚ) : JVal
  | str (s : String) : JVal
  | arr (elems : JArr) : JVal
  | obj (fields : JObj) : JVal

inductive JArr : Type where
  | nil : JArr
  | cons (hd : JVal) (tl : JArr) : JArr

inductive JObj : Type where
  | nil : JObj
  | cons (key : String) (value : JVal) (tl : JObj) : JObj
end

/-- The list of elements of a modelled JS array. -/
def JArr.toList : JArr → List JVal
  | .nil => []
  | .cons x xs => x :: JArr.toList xs

/-- JavaScript truthiness of a value: undefined, NaN, null, false, 0 and
the empty string are falsy; everything else (arrays and objects included)
is truthy. -/
def truthy : JVal → Bool
  | .undefined => false
  | .nan => false
  | .null => false
  | .bool b => b
  | .num q => decide (q ≠ 0)
  | .str s => s ≠ ""
  | .arr _ => true
  | .obj _ => true

/-- First field of the object with the given key, undefined when absent
(JS object keys are unique, so first-match lookup is exact). -/
def JObj.lookup : JObj → String → JVal
  | .nil, _ => .undefined
  | .cons k v tl, key => if k = key then v else JObj.lookup tl key

/-- JavaScript property access as the node uses it: reading a key of a
plain object, undefined when the key is absent or the value is not an
object. The node only dereferences values its guards have already checked,
so the TypeError cases (access on null or undefined) do not arise on the
modelled paths. -/
def jGet : JVal → String → JVal
  | .obj fs, k => fs.lookup k
  | _, _ => .undefined

/-- Whether a value is the JS undefined, as tested by the node's
strict comparisons with undefined. -/
def JVal.isUndefined : JVal → Bool
  | .undefined => true
  | _ => false

/-- Whether a value is a non-empty JS array, the shape the LS120 energy
endpoint must deliver. -/
def JVal.isNonEmptyArray : JVal → Bool
  | .arr (.cons _ _) => true
  | _ => false

/-- The helper roundToDecimalPlaces(value, decimalPlaces) of
src/youless-se.js. Finite JS numbers are rationals here, so of the guard
only the decimalPlaces sign check remains (the NaN case is the separate
JVal.nan constructor, handled where the helper is called); JS Math.round
is half-up rounding, floor(x + 1/2), and Math.pow(10, d) is exact for the
natural exponents used. -/
def roundToDecimalPlaces (value : ℚ) (decimalPlaces : Int) : ℚ :=
  if decimalPlaces < 0 then value
  else
    (⌊value * (10 : ℚ) ^ decimalPlaces.toNat + 1 / 2⌋ : ℚ) / (10 : ℚ) ^ decimalPlaces.toNat

/-- Rounding as the specification describes it, written from the spec's
words for comparison with the code's roundToDecimalPlaces: standard
round-half-away-from-zero at the given decimal precision. -/
def specRoundHalfAwayFromZero (value : ℚ) (decimalPlaces : Int) : ℚ :=
  if decimalPlaces < 0 then value
  else
    let factor : ℚ := (10 : ℚ) ^ decimalPlaces.toNat
    if 0 ≤ value then (⌊value * factor + 1 / 2⌋ : ℚ) / factor
    else -((⌊-value * factor + 1 / 2⌋ : ℚ) / factor)

/-! The recursive traversal processObjectValues and its mutual helpers. -/
mutual
/-- The recursive traversal processObjectValues(obj, decimalPlaces) of
src/youless-se.js on JS values: null and non-objects are returned
unchanged; arrays are mapped element-wise through the traversal itself;
for each own property of an object, numbers are rounded (NaN, of type
number in JS, passes through the rounding helper's guard unchanged),
nested objects and arrays are recursed into, and all other values are
copied. -/
def processObjectValues (d : Int) : JVal → JVal
  | .arr xs => .arr (processArr d xs)
  | .obj fs => .obj (processFields d fs)
  | v => v

/-- Element-wise traversal of an array by processObjectValues
(the obj.map branch of the JS helper). -/
def processArr (d : Int) : JArr → JArr
  | .nil => .nil
  | .cons x xs => .cons (processObjectValues d x) (processArr d xs)

/-- Per-property traversal of an object's fields by processObjectValues
(the for-in loop of the JS helper). -/
def processFields (d : Int) : JObj → JObj
  | .nil => .nil
  | .cons k v fs =>
    let v2 : JVal :=
      match v with
      | .num q => .num (roundToDecimalPlaces q d)
      | .nan => .nan
      | .arr xs => processObjectValues d (.arr xs)
      | .obj gs => processObjectValues d (.obj gs)
      | w => w
    .cons k v2 (processFields d fs)
end

/-! Heap-level model of the normalizer. The tree-level processObjectValues
above gives the value semantics; the definitions below model the same JS
function at the level of object identity and allocation, to state that the
traversal never writes to its input. A heap is a list of array/object
nodes addressed by position; the JS engine's allocation of the fresh
`result` object (and of the array produced by obj.map) is an append at the
end of the heap. Recursion depth is bounded by explicit fuel: exhausted
fuel models the stack overflow a cyclic input would cause in JS, and every
theorem about the traversal holds for every fuel value. -/

/-- Heap-level JS values: the primitives are immediate, arrays and objects
are references into the heap. -/
inductive HVal : Type where
  | undefined : HVal
  | nan : HVal
  | null : HVal
  | bool (b : Bool) : HVal
  | num (q : ℚ) : HVal
  | str (s : String) : HVal
  | ref (a : Nat) : HVal

/-- Whether a heap-level value is a reference (a JS array or object)
rather than a primitive. -/
def HVal.isRef : HVal → Bool
  | .ref _ => true
  | _ => false

/-- A heap node: an array of values or an object with ordered fields. -/
inductive HNode : Type where
  | arrN (elems : List HVal) : HNode
  | objN (fields : List (String × HVal)) : HNode

/-- The heap: nodes addressed by their position; allocation appends. -/
abbrev Heap : Type := List HNode

mutual
/-- Heap-level processObjectValues: primitives and null are returned
unchanged without touching the heap; a reference is dereferenced and a
fresh node holding the processed elements or fields is allocated at the
end of the heap. Fuel exhaustion (and the unreachable dangling-reference
case) yields no result, modelling the exception such a run would raise. -/
def processObjectValuesH (d : Int) : Nat → Heap → HVal → Heap × Option HVal
  | 0, h, _ => (h, none)
  | Nat.succ fuel, h, v =>
    match v with
    | .ref a =>
      match h[a]? with
      | some (.arrN xs) =>
        match processArrH d fuel h xs with
        | (h1, some ys) => (h1 ++ [HNode.arrN ys], some (.ref h1.length))
        | (h1, none) => (h1, none)
      | some (.objN fs) =>
        match processFieldsH d fuel h fs with
        | (h1, some gs) => (h1 ++ [HNode.objN gs], some (.ref h1.length))
        | (h1, none) => (h1, none)
      | none => (h, none)
    | w => (h, some w)

/-- Heap-level element-wise traversal of an array's values (obj.map),
threading the heap left to right. -/
def processArrH (d : Int) : Nat → Heap → List HVal → Heap × Option (List HVal)
  | 0, h, _ => (h, none)
  | Nat.succ _, h, [] => (h, some [])
  | Nat.succ fuel, h, x :: xs =>
    match processObjectValuesH d fuel h x with
    | (h1, some y) =>
      match processArrH d fuel h1 xs with
      | (h2, some ys) => (h2, some (y :: ys))
      | (h2, none) => (h2, none)
    | (h1, none) => (h1, none)

/-- Heap-level per-property traversal of an object's fields (the for-in
loop): numbers are rounded, references are recursed into, every other
primitive is copied. -/
def processFieldsH (d : Int) : Nat → Heap → List (String × HVal) → Heap × Option (List (String × HVal))
  | 0, h, _ => (h, none)
  | Nat.succ _, h, [] => (h, some [])
  | Nat.succ fuel, h, (k, v) :: fs =>
    let step : Heap × Option HVal :=
      match v with
      | .num q => (h, some (.num (roundToDecimalPlaces q d)))
      | .nan => (h, some HVal.nan)
      | .ref a => processObjectValuesH d fuel h (.ref a)
      | w => (h, some w)
    match step with
    | (h1, some y) =>
      match processFieldsH d fuel h1 fs with
      | (h2, some gs) => (h2, some ((k, y) :: gs))
      | (h2, none) => (h2, none)
    | (h1, none) => (h1, none)
end

mutual
/-- Reading a heap value back as a tree: the observation an owner of the
pre-normalization record can make of it. Fuel bounds the depth; a dangling
reference reads back as nothing. -/
def readBackH : Nat → Heap → HVal → Option JVal
  | 0, _, _ => none
  | Nat.succ fuel, h, v =>
    match v with
    | .undefined => some .undefined
    | .nan => some .nan
    | .null => some .null
    | .bool b => some (.bool b)
    | .num q => some (.num q)
    | .str s => some (.str s)
    | .ref a =>
      match h[a]? with
      | some (.arrN xs) => (readBackArrH fuel h xs).map JVal.arr
      | some (.objN fs) => (readBackFieldsH fuel h fs).map JVal.obj
      | none => none

/-- Reading back each element of an array node. -/
def readBackArrH : Nat → Heap → List HVal → Option JArr
  | 0, _, _ => none
  | Nat.succ _, _, [] => some .nil
  | Nat.succ fuel, h, x :: xs =>
    match readBackH fuel h x, readBackArrH fuel h xs with
    | some y, some ys => some (.cons y ys)
    | _, _ => none

/-- Reading back each field of an object node. -/
def readBackFieldsH : Nat → Heap → List (String × HVal) → Option JObj
  | 0, _, _ => none
  | Nat.succ _, _, [] => some .nil
  | Nat.succ fuel, h, (k, v) :: fs =>
    match readBackH fuel h v, readBackFieldsH fuel h fs with
    | some y, some ys => some (.cons k y ys)
    | _, _ => none
end

/-! The LS120 fetcher fetchLS120Data of src/youless-se.js. Each HTTP call
is abstracted by its outcome, an Except: error for a transport failure or
timeout (axios throwing), ok with the delivered body otherwise. The
current timestamp and the epoch-to-ISO conversion new Date(x*1000)
.toISOString() are passed in as parameters. JS operators applied to the
meter's fields are modelled on the numeric shapes of the meter schema;
coercions a non-numeric body would trigger (string concatenation in +,
string-to-number in comparisons) collapse to undefined, NaN or false as
noted on each helper. -/

/-- Configuration of the node as the LS120 fetcher consults it. -/
structure NodeConfig where
  showNegativeCurrent : Bool

/-- The JS expression (v || dflt): the left value when truthy, else the
default. -/
def jsTruthyOr (v dflt : JVal) : JVal := if truthy v then v else dflt

/-- JS + on the meter's numeric fields; non-numeric operand combinations
(which JS would coerce or concatenate) are outside the meter schema and
collapse to undefined. -/
def jsAdd : JVal → JVal → JVal
  | .num a, .num b => .num (a + b)
  | _, _ => .undefined

/-- JS Math.abs on the meter's power field; a non-number (where JS would
coerce, NaN for undefined) collapses to NaN. -/
def jsAbs : JVal → JVal
  | .num q => .num (abs q)
  | _ => .nan

/-- The JS comparison (v < 0) on the meter's fields: false for undefined
and NaN as in JS; string coercion is outside the meter schema. -/
def jsIsNeg : JVal → Bool
  | .num q => decide (q < 0)
  | _ => false

/-- The JS comparison (v > 0) on the meter's fields. -/
def jsIsPos : JVal → Bool
  | .num q => decide (0 < q)
  | _ => false

/-- JS unary minus on a number; non-numeric coercion collapses to NaN. -/
def jsNeg : JVal → JVal
  | .num q => .num (-q)
  | _ => .nan

/-- Delivered or returned tariff totals of the LS120 record. -/
structure TariffTotals where
  total : JVal
  tariff1 : JVal
  tariff2 : JVal

/-- The S0 pulse-counter sub-object of the LS120 record; the timestamp is
none when the meter sent no (truthy) ts0, modelling the JS null. -/
structure S0Data where
  counter : JVal
  power : JVal
  timestamp : Option String

/-- A gas or water sub-object of the LS120 record. -/
structure MeterReading where
  counter : JVal
  timestamp : Option String

/-- One phase of the LS120 phase data. -/
structure PhaseValues where
  current : JVal
  voltage : JVal
  power : JVal

/-- The three phases of the LS120 phase data. -/
structure PhaseSet where
  L1 : PhaseValues
  L2 : PhaseValues
  L3 : PhaseValues

/-- The telemetry record fetchLS120Data assembles. A field is none when
the corresponding JS assignment never ran, so the key is absent from the
emitted object. -/
structure LS120Record where
  timestamp : String
  model : String
  power : Option JVal := none
  isGenerating : Option Bool := none
  powerAbsolute : Option JVal := none
  net : Option JVal := none
  delivered : Option TariffTotals := none
  returned : Option TariffTotals := none
  s0 : Option S0Data := none
  gas : Option MeterReading := none
  water : Option MeterReading := none
  phases : Option PhaseSet := none
  tariff : Option JVal := none
  activePower : Option JVal := none
  peakPower : Option JVal := none
  peakTimestamp : Option String := none

/-- The processPhaseValue closure of fetchLS120Data: defaults the current,
then flips it negative when showNegativeCurrent is set, the phase power is
negative and the (defaulted) current is positive. -/
def processPhaseValue (cfg : NodeConfig) (current voltage power : JVal) : PhaseValues :=
  let processedCurrent := jsTruthyOr current (.num 0)
  let flipped :=
    if cfg.showNegativeCurrent && jsIsNeg power && jsIsPos processedCurrent then
      jsNeg processedCurrent
    else processedCurrent
  { current := flipped, voltage := jsTruthyOr voltage (.num 0), power := jsTruthyOr power (.num 0) }

/-- fetchLS120Data of src/youless-se.js. A transport failure of the
primary energy call propagates (axios throws through the function); a
delivered body populates the record only inside the guard requiring a
non-empty array, so any other body yields the bare timestamp-and-model
record; the secondary phase call runs only inside that guard and its
failure is swallowed. -/
def fetchLS120Data (cfg : NodeConfig) (ts : String)
    (energy : Except Unit JVal) (phase : Except Unit JVal)
    (epochToIso : JVal → String) : Except Unit LS120Record :=
  match energy with
  | .error e => .error e
  | .ok body =>
    match body with
    | .arr (.cons data _) =>
      let withEnergy : LS120Record :=
        { timestamp := ts
          model := ("LS120")
          power := some (jGet data ("pwr"))
          isGenerating := some (jsIsNeg (jGet data ("pwr")))
          powerAbsolute := some (jsAbs (jGet data ("pwr")))
          net := some (jGet data ("net"))
          delivered := some
            { total := jsAdd (jsTruthyOr (jGet data ("p1")) (.num 0)) (jsTruthyOr (jGet data ("p2")) (.num 0))
              tariff1 := jsTruthyOr (jGet data ("p1")) (.num 0)
              tariff2 := jsTruthyOr (jGet data ("p2")) (.num 0) }
          returned := some
            { total := jsAdd (jsTruthyOr (jGet data ("n1")) (.num 0)) (jsTruthyOr (jGet data ("n2")) (.num 0))
              tariff1 := jsTruthyOr (jGet data ("n1")) (.num 0)
              tariff2 := jsTruthyOr (jGet data ("n2")) (.num 0) }
          s0 :=
            if (jGet data ("cs0")).isUndefined then none
            else some
              { counter := jGet data ("cs0")
                power := jsTruthyOr (jGet data ("ps0")) (.num 0)
                timestamp := if truthy (jGet data ("ts0")) then some (epochToIso (jGet data ("ts0"))) else none }
          gas :=
            if (jGet data ("gas")).isUndefined then none
            else some
              { counter := jGet data ("gas")
                timestamp := if truthy (jGet data ("gts")) then some (epochToIso (jGet data ("gts"))) else none }
          water :=
            if (jGet data ("wtr")).isUndefined then none
            else some
              { counter := jGet data ("wtr")
                timestamp := if truthy (jGet data ("wts")) then some (epochToIso (jGet data ("wts"))) else none } }
      let withPhases : LS120Record :=
        match phase with
        | .error _ => withEnergy
        | .ok pd =>
          if truthy pd then
            { withEnergy with
              phases := some
                { L1 := processPhaseValue cfg (jGet pd ("i1")) (jGet pd ("v1")) (jGet pd ("l1"))
                  L2 := processPhaseValue cfg (jGet pd ("i2")) (jGet pd ("v2")) (jGet pd ("l2"))
                  L3 := processPhaseValue cfg (jGet pd ("i3")) (jGet pd ("v3")) (jGet pd ("l3")) }
              tariff := if (jGet pd ("tr")).isUndefined then none else some (jGet pd ("tr"))
              activePower := if (jGet pd ("pa")).isUndefined then none else some (jGet pd ("pa"))
              peakPower := if (jGet pd ("pp")).isUndefined then none else some (jGet pd ("pp"))
              peakTimestamp := if (jGet pd ("pts")).isUndefined then none else some (epochToIso (jGet pd ("pts"))) }
          else withEnergy
      .ok withPhases
    | _ => .ok { timestamp := ts, model := ("LS120") }

/-- The first element of the specification's LS120 example energy
response: pwr -500, net 120.5, p1 10, p2 5, n1 0, n2 0. -/
def sampleEnergyFirst : JVal :=
  .obj (.cons ("pwr") (.num (-500))
    (.cons ("net") (.num (120.5))
    (.cons ("p1") (.num 10)
    (.cons ("p2") (.num 5)
    (.cons ("n1") (.num 0)
    (.cons ("n2") (.num 0) .nil))))))

/-! The device prober pingYouLess of src/youless-se.js. Each of the three
HTTP probes is abstracted by its outcome: none when the request threw
(timeout, refused, or a status of 500 or more rejected by validateStatus),
or the response's status and body. A body is either structured data as
axios parsed it, or a string the code subjects to a secondary JSON.parse,
carried together with that parse's outcome. The best-effort reverse-DNS
lookup is abstracted by its outcome as well. -/

/-- A response body: structured (non-string) data, or a string body
together with the outcome of the secondary JSON.parse the prober applies
to it. -/
inductive Body : Type where
  | val (v : JVal) : Body
  | strOk (s : String) (v : JVal) : Body
  | strErr (s : String) : Body

/-- An HTTP response the prober's validateStatus accepted: its status
code and body. -/
structure HttpResp where
  status : Nat
  data : Body

/-- Truthiness of a raw response body (the response.data guard runs on the
body before any parse; a string body is falsy exactly when empty). -/
def Body.truthy : Body → Bool
  | .val v => YouLessSE.truthy v
  | .strOk s _ => s ≠ ""
  | .strErr s => s ≠ ""

/-- Property access on the device-info body after the prober's optional
secondary parse: the parsed value's property, or undefined when the string
failed to parse (the code then reads properties off the string itself). -/
def devDataGet : Body → String → JVal
  | .val v, k => jGet v k
  | .strOk _ v, k => jGet v k
  | .strErr _, _ => .undefined

/-- Property access on a raw (unparsed) response body, as the LS110 check
reads data.cnt and data.pwr: undefined on a string body. -/
def rawGet : Body → String → JVal
  | .val v, k => jGet v k
  | .strOk _ _, _ => .undefined
  | .strErr _, _ => .undefined

/-- The LS120 shape test of the prober's third step: the body is an array,
non-empty, and its first element has a pwr or a net property. -/
def ls120Shape : Body → Bool
  | .val (.arr (.cons x _)) => !(jGet x ("pwr")).isUndefined || !(jGet x ("net")).isUndefined
  | _ => false

/-- A positive probe result, as pushed onto the discovery list. -/
structure ProbeResult where
  ip : String
  name : Option String
  model : JVal
  mac : JVal

/-- The prober's mutable classification state: the model and mac captured
so far and whether a step has confirmed the host. -/
structure PingState where
  model : JVal
  mac : JVal
  isYouLess : Bool

/-- The prober's initial state: model "Unknown", empty mac, unconfirmed. -/
def pingInit : PingState := { model := .str ("Unknown"), mac := .str (""), isYouLess := false }

/-- Step 1 of the prober: on a 200 response with a truthy body, capture a
truthy model property (confirming the host) and a truthy mac property,
each independently. -/
def pingStep1 (dResp : Option HttpResp) (s : PingState) : PingState :=
  match dResp with
  | none => s
  | some r =>
    if r.status = 200 && r.data.truthy then
      let s1 :=
        if truthy (devDataGet r.data ("model")) then
          { s with model := devDataGet r.data ("model"), isYouLess := true }
        else s
      if truthy (devDataGet r.data ("mac")) then
        { s1 with mac := devDataGet r.data ("mac") }
      else s1
    else s

/-- Whether the prober's second step would match: a 200 LS110-endpoint
response with a truthy body having both cnt and pwr properties (a thrown
request and a failed check classify nothing, identically). -/
def ls110Matches (aResp : Option HttpResp) : Bool :=
  match aResp with
  | none => false
  | some r =>
    r.status = 200 && r.data.truthy
      && !(rawGet r.data ("cnt")).isUndefined && !(rawGet r.data ("pwr")).isUndefined

/-- Whether the prober's third step would match: a 200 LS120-endpoint
response with a truthy body passing the LS120 shape test. -/
def ls120Matches (eResp : Option HttpResp) : Bool :=
  match eResp with
  | none => false
  | some r => r.status = 200 && r.data.truthy && ls120Shape r.data

/-- Step 2 of the prober, run only while unconfirmed: when the LS110
check matches, classify the host as model "LS110". -/
def pingStep2 (aResp : Option HttpResp) (s : PingState) : PingState :=
  if s.isYouLess then s
  else if ls110Matches aResp then { s with model := .str ("LS110"), isYouLess := true }
  else s

/-- Step 3 of the prober, run only while still unconfirmed: when the
LS120 check matches, classify the host as model "LS120". -/
def pingStep3 (eResp : Option HttpResp) (s : PingState) : PingState :=
  if s.isYouLess then s
  else if ls120Matches eResp then { s with model := .str ("LS120"), isYouLess := true }
  else s

/-- The display name from the best-effort reverse-DNS lookup: the first
hostname when the lookup succeeded with a non-empty list, else null. -/
def reverseName (rev : Option (List String)) : Option String :=
  match rev with
  | some (h :: _) => some h
  | _ => none

/-- pingYouLess of src/youless-se.js as a function of the three probe
outcomes and the reverse-DNS outcome: the three classification steps in
order, then a result exactly when one of them confirmed the host. -/
def pingYouLess (ip : String) (dResp aResp eResp : Option HttpResp)
    (rev : Option (List String)) : Option ProbeResult :=
  let s := pingStep3 eResp (pingStep2 aResp (pingStep1 dResp pingInit))
  if s.isYouLess then
    some { ip := ip, name := reverseName rev, model := s.model, mac := s.mac }
  else none

/-- Whether the prober's first step confirms the host: a 200 device-info
response with a truthy body whose (possibly re-parsed) model property is
truthy. -/
def dStepConfirms (dResp : Option HttpResp) : Bool :=
  match dResp with
  | none => false
  | some r => r.status = 200 && r.data.truthy && truthy (devDataGet r.data ("model"))

/-- The model the prober's first step leaves in place: the device-info
body's model property when step 1 confirms, else the untouched initial
"Unknown". -/
def dStepModel (dResp : Option HttpResp) : JVal :=
  match dResp with
  | none => .str ("Unknown")
  | some r =>
    if r.status = 200 && r.data.truthy && truthy (devDataGet r.data ("model")) then
      devDataGet r.data ("model")
    else .str ("Unknown")

/-- The mac the prober's first step captures: the device-info body's mac
property when present and truthy on a 200 truthy-body response (captured
even when the model property is absent), else the empty string. -/
def dStepMac (dResp : Option HttpResp) : JVal :=
  match dResp with
  | none => .str ("")
  | some r =>
    if r.status = 200 && r.data.truthy && truthy (devDataGet r.data ("mac")) then
      devDataGet r.data ("mac")
    else .str ("")

/-! The discovery orchestrator discoverYouLess of src/youless-se.js. One
subnet candidate holds the three-octet base of a local /24. The prober is
passed as a function from the address to its (pure) outcome; the
concurrent fan-out and the Promise.all join are modelled by deterministic
sequential evaluation over the same address list, every address being
probed and every positive result collected. -/

/-- A subnet candidate produced by getLocalNetworks: the first three
octets and the netmask. -/
structure NetworkCandidate where
  base : String
  netmask : String

/-- The address loop for one candidate: for i from the given start up to
254, the address base.i (mirrors the JS for-loop counting 1 to 254). -/
def scanIps (base : String) (i : Nat) : List String :=
  if h : i ≤ 254 then (base ++ "." ++ toString i) :: scanIps base (i + 1) else []
termination_by 255 - i
decreasing_by omega

/-- The full scan list: the 254 addresses of every candidate, in candidate
order (the scanPromises array of the JS function). -/
def buildScanList : List NetworkCandidate → List String
  | [] => []
  | n :: rest => scanIps n.base 1 ++ buildScanList rest

/-- discoverYouLess: probe every address of every candidate's scan list
and collect exactly the positive results (each probe's then-callback
pushes its result when non-null; the Promise.all join before returning is
modelled by the traversal being total over the list). -/
def discoverYouLess (networks : List NetworkCandidate)
    (probe : String → Option ProbeResult) : List ProbeResult :=
  (buildScanList networks).filterMap probe

/-! The polling lifecycle state machine of a configured node: the timer
handle intervalId (abstracted to whether it is set) and the consecutive
error counter, with the transitions the code performs in startPolling,
stopPolling and the two ends of fetchData. The scheduler itself is
abstracted: a state with the interval cleared schedules no further cycle. -/

/-- The consecutive-failure ceiling MAX_ERRORS of src/youless-se.js. -/
def MAX_ERRORS : Nat := 10

/-- The mutable session state of one node: whether intervalId is set and
the consecutive error count. -/
structure SessionState where
  intervalSet : Bool
  errorCount : Nat
deriving DecidableEq

/-- The session state of a freshly created node: no timer, no errors. -/
def initialState : SessionState := { intervalSet := false, errorCount := 0 }

/-- How one fetch cycle ends: success, failure (transport or shape error),
or the re-validation of the configuration failing at the cycle's start. -/
inductive FetchOutcome : Type where
  | success : FetchOutcome
  | failure : FetchOutcome
  | invalidConfig : FetchOutcome

/-- stopPolling: clear the interval (idempotent); the error count is left
untouched. -/
def stopPolling (s : SessionState) : SessionState :=
  { s with intervalSet := false }

/-- startPolling: a no-op when the interval is already set or the
configuration is invalid; otherwise reset the error count and set up the
interval (the immediate first fetch cycle it also issues completes later,
as a separate fetchDataStep). -/
def startPolling (validConfig : Bool) (s : SessionState) : SessionState :=
  if s.intervalSet then s
  else if validConfig then { intervalSet := true, errorCount := 0 }
  else s

/-- The state effect of one completed fetchData cycle: an invalid
configuration forces stopPolling; success resets the error count; failure
increments it and, once it reaches MAX_ERRORS, clears the interval. -/
def fetchDataStep (outcome : FetchOutcome) (s : SessionState) : SessionState :=
  match outcome with
  | .invalidConfig => stopPolling s
  | .success => { s with errorCount := 0 }
  | .failure =>
    let e := s.errorCount + 1
    if MAX_ERRORS ≤ e then { intervalSet := false, errorCount := e }
    else { s with errorCount := e }

/-- The events that change a session's state: an explicit start (with the
configuration's validity at that moment), an explicit stop (also the
teardown on close), and the completion of any fetch cycle, scheduled,
immediate or fetch-once. -/
inductive SessionEvent : Type where
  | start (validConfig : Bool) : SessionEvent
  | stop : SessionEvent
  | fetchDone (outcome : FetchOutcome) : SessionEvent

/-- One step of the session state machine. -/
def sessionStep : SessionEvent → SessionState → SessionState
  | .start v, s => startPolling v s
  | .stop, s => stopPolling s
  | .fetchDone o, s => fetchDataStep o s

/-- The states a session can be in: the initial state and everything the
events reach from it. -/
inductive Reachable : SessionState → Prop where
  | init : Reachable initialState
  | step (e : SessionEvent) {s : SessionState} : Reachable s → Reachable (sessionStep e s)

/-! Theorems. First the rounding helper, then the normalizer, the heap
model, the fetcher, the prober, discovery and the session state machine. -/

/-- With a negative decimal-place count the rounding helper returns its
input unchanged (rounding disabled). -/
theorem roundToDecimalPlaces_of_neg (value : ℚ) (d : Int) (hd : d < 0) :
    roundToDecimalPlaces value d = value := by
  simp [roundToDecimalPlaces, hd]

/-- Rounding an already-rounded value at the same precision is a no-op. -/
theorem roundToDecimalPlaces_idem (value : ℚ) (d : Int) :
    roundToDecimalPlaces (roundToDecimalPlaces value d) d = roundToDecimalPlaces value d := by
  by_cases hd : d < 0
  · simp [roundToDecimalPlaces, hd]
  · have hf : ((10 : ℚ) ^ d.toNat) ≠ 0 := by positivity
    simp only [roundToDecimalPlaces, hd, if_false]
    rw [div_mul_cancel₀ _ hf, Int.floor_int_add]
    norm_num

/-- Claim C2, counterexample: at the concrete input -2.5 with 0 decimal
places, the code's rounding helper yields -2 while round-half-away-from-
zero (as the specification describes it) yields -3, so the helper is not
half-away-from-zero rounding. -/
theorem C2_cex :
    roundToDecimalPlaces (-(5 / 2)) 0 = -2
    ∧ specRoundHalfAwayFromZero (-(5 / 2)) 0 = -3
    ∧ ((-2 : ℚ) ≠ -3) := by
  refine ⟨?_, ?_, by norm_num⟩
  · simp only [roundToDecimalPlaces]
    norm_num
  · simp only [specRoundHalfAwayFromZero]
    norm_num

/-- Claim C2, amended: for every finite value and decimal-place count
d at least 0, the helper returns the multiple of 10 to the power -d
obtained by rounding half-UP (towards positive infinity): the result is
such a multiple, lies strictly above v - h and at or below v + h for h
half an ulp, which characterises half-up rounding (ties land on the upper
bound). -/
theorem C2_thm (value : ℚ) (d : Int) (hd : 0 ≤ d) :
    (∃ k : ℤ, roundToDecimalPlaces value d = (k : ℚ) / (10 : ℚ) ^ d.toNat)
    ∧ -(1 / (2 * (10 : ℚ) ^ d.toNat)) < roundToDecimalPlaces value d - value
    ∧ roundToDecimalPlaces value d - value ≤ 1 / (2 * (10 : ℚ) ^ d.toNat) := by
  have hd' : ¬ d < 0 := not_lt.mpr hd
  have hfpos : (0 : ℚ) < (10 : ℚ) ^ d.toNat := by positivity
  have hf : ((10 : ℚ) ^ d.toNat) ≠ 0 := ne_of_gt hfpos
  simp only [roundToDecimalPlaces, hd', if_false]
  set f : ℚ := (10 : ℚ) ^ d.toNat with hfEq
  set k : ℤ := ⌊value * f + 1 / 2⌋ with hkEq
  have hk1 : (k : ℚ) ≤ value * f + 1 / 2 := Int.floor_le _
  have hk2 : value * f + 1 / 2 - 1 < (k : ℚ) := Int.sub_one_lt_floor _
  refine ⟨⟨k, rfl⟩, ?_, ?_⟩
  · rw [neg_lt, neg_sub]
    calc value - (k : ℚ) / f = (value * f - (k : ℚ)) / f := by field_simp
    _ < (1 / 2) / f := by rw [div_lt_div_iff_of_pos_right hfpos]; linarith
    _ = 1 / (2 * f) := div_div 1 2 f
  · rw [sub_le_iff_le_add]
    have h12 : (1 : ℚ) / (2 * f) + value = (1 / 2 + value * f) / f := by
      field_simp
      ring
    rw [h12, div_le_div_iff_of_pos_right hfpos]
    linarith

/-- Claim C2, witness: the amended theorem at the concrete input 1/4 with
one decimal place. -/
theorem C2_wit :
    (0 : Int) ≤ 1
    ∧ ((∃ k : ℤ, roundToDecimalPlaces (1 / 4) 1 = (k : ℚ) / (10 : ℚ) ^ (1 : Int).toNat)
      ∧ -(1 / (2 * (10 : ℚ) ^ (1 : Int).toNat)) < roundToDecimalPlaces (1 / 4) 1 - 1 / 4
      ∧ roundToDecimalPlaces (1 / 4) 1 - 1 / 4 ≤ 1 / (2 * (10 : ℚ) ^ (1 : Int).toNat)) :=
  ⟨by norm_num, C2_thm (1 / 4) 1 (by norm_num)⟩

/-! Idempotence and the disabled case of the recursive traversal, by
mutual structural induction over values, arrays and field lists. -/

mutual
/-- Normalizing an already-normalized value again at the same precision
changes nothing. -/
theorem processObjectValues_idem (d : Int) :
    ∀ v : JVal, processObjectValues d (processObjectValues d v) = processObjectValues d v
  | .undefined => rfl
  | .nan => rfl
  | .null => rfl
  | .bool _ => rfl
  | .num _ => rfl
  | .str _ => rfl
  | .arr xs => by
    simp only [processObjectValues, processArr_idem d xs]
  | .obj fs => by
    simp only [processObjectValues, processFields_idem d fs]

/-- Element-wise idempotence over arrays. -/
theorem processArr_idem (d : Int) :
    ∀ xs : JArr, processArr d (processArr d xs) = processArr d xs
  | .nil => rfl
  | .cons x xs => by
    simp only [processArr, processObjectValues_idem d x, processArr_idem d xs]

/-- Per-property idempotence over object fields. -/
theorem processFields_idem (d : Int) :
    ∀ fs : JObj, processFields d (processFields d fs) = processFields d fs
  | .nil => rfl
  | .cons k v fs => by
    cases v with
    | num q =>
      simp only [processFields, roundToDecimalPlaces_idem, processFields_idem d fs]
    | arr xs =>
      simp only [processFields, processObjectValues, processArr_idem d xs,
        processFields_idem d fs]
    | obj gs =>
      simp only [processFields, processObjectValues, processFields_idem d gs,
        processFields_idem d fs]
    | undefined => simp only [processFields, processFields_idem d fs]
    | nan => simp only [processFields, processFields_idem d fs]
    | null => simp only [processFields, processFields_idem d fs]
    | bool b => simp only [processFields, processFields_idem d fs]
    | str s => simp only [processFields, processFields_idem d fs]
end

mutual
/-- With a negative decimal-place count the whole traversal is the
identity. -/
theorem processObjectValues_of_neg (d : Int) (hd : d < 0) :
    ∀ v : JVal, processObjectValues d v = v
  | .undefined => rfl
  | .nan => rfl
  | .null => rfl
  | .bool _ => rfl
  | .num _ => rfl
  | .str _ => rfl
  | .arr xs => by simp only [processObjectValues, processArr_of_neg d hd xs]
  | .obj fs => by simp only [processObjectValues, processFields_of_neg d hd fs]

/-- The array traversal is the identity when rounding is disabled. -/
theorem processArr_of_neg (d : Int) (hd : d < 0) :
    ∀ xs : JArr, processArr d xs = xs
  | .nil => rfl
  | .cons x xs => by
    simp only [processArr, processObjectValues_of_neg d hd x, processArr_of_neg d hd xs]

/-- The field traversal is the identity when rounding is disabled. -/
theorem processFields_of_neg (d : Int) (hd : d < 0) :
    ∀ fs : JObj, processFields d fs = fs
  | .nil => rfl
  | .cons k v fs => by
    cases v with
    | num q =>
      simp only [processFields, roundToDecimalPlaces_of_neg q d hd,
        processFields_of_neg d hd fs]
    | arr xs =>
      simp only [processFields, processObjectValues_of_neg d hd (.arr xs),
        processFields_of_neg d hd fs]
    | obj gs =>
      simp only [processFields, processObjectValues_of_neg d hd (.obj gs),
        processFields_of_neg d hd fs]
    | undefined => simp only [processFields, processFields_of_neg d hd fs]
    | nan => simp only [processFields, processFields_of_neg d hd fs]
    | null => simp only [processFields, processFields_of_neg d hd fs]
    | bool b => simp only [processFields, processFields_of_neg d hd fs]
    | str s => simp only [processFields, processFields_of_neg d hd fs]
end

/-- The array branch of the traversal is exactly an element-wise map of
the traversal. -/
theorem processArr_toList (d : Int) :
    ∀ xs : JArr, (processArr d xs).toList = xs.toList.map (processObjectValues d)
  | .nil => rfl
  | .cons x xs => by
    simp only [processArr, JArr.toList, List.map, processArr_toList d xs]

/-- Claim C7: the normalizer's recursive rounding is idempotent (at every
decimal-place count, in particular every d at least 0); rounding with
decimalPlaces = -1 is the identity transform; arrays are processed
element-wise; and non-numeric, null and structural top-level values as
well as non-numeric object fields pass through unchanged. -/
theorem C7_thm :
    (∀ (d : Int) (v : JVal),
      processObjectValues d (processObjectValues d v) = processObjectValues d v)
    ∧ (∀ v : JVal, processObjectValues (-1) v = v)
    ∧ (∀ (d : Int) (xs : JArr),
      processObjectValues d (.arr xs) = .arr (processArr d xs)
      ∧ (processArr d xs).toList = xs.toList.map (processObjectValues d))
    ∧ (∀ (d : Int) (s : String), processObjectValues d (.str s) = .str s)
    ∧ (∀ d : Int, processObjectValues d .null = .null)
    ∧ (∀ (d : Int) (b : Bool), processObjectValues d (.bool b) = .bool b)
    ∧ (∀ (d : Int) (k s : String) (fs : JObj),
      processFields d (.cons k (.str s) fs) = .cons k (.str s) (processFields d fs))
    ∧ (∀ (d : Int) (k : String) (fs : JObj),
      processFields d (.cons k .null fs) = .cons k .null (processFields d fs))
    ∧ (∀ (d : Int) (k : String) (b : Bool) (fs : JObj),
      processFields d (.cons k (.bool b) fs) = .cons k (.bool b) (processFields d fs)) :=
  ⟨fun d v => processObjectValues_idem d v,
   fun v => processObjectValues_of_neg (-1) (by norm_num) v,
   fun d xs => ⟨rfl, processArr_toList d xs⟩,
   fun _ _ => rfl,
   fun _ => rfl,
   fun _ _ => rfl,
   fun _ _ _ _ => rfl,
   fun _ _ _ => rfl,
   fun _ _ _ _ => rfl⟩

/-! The heap-level traversal only appends to the heap: every run extends
the input heap by a (possibly empty) tail of freshly allocated nodes. -/

/-- Frame property of the heap-level traversal, for the value, array and
field forms at once: the output heap is the input heap plus appended
nodes, for every fuel. -/
theorem processH_frame :
    ∀ fuel : Nat,
      (∀ (d : Int) (h : Heap) (v : HVal), ∃ t, (processObjectValuesH d fuel h v).1 = h ++ t)
      ∧ (∀ (d : Int) (h : Heap) (xs : List HVal), ∃ t, (processArrH d fuel h xs).1 = h ++ t)
      ∧ (∀ (d : Int) (h : Heap) (fs : List (String × HVal)),
          ∃ t, (processFieldsH d fuel h fs).1 = h ++ t) := by
  intro fuel
  induction fuel with
  | zero =>
    exact ⟨fun d h v => ⟨[], by simp [processObjectValuesH]⟩,
           fun d h xs => ⟨[], by simp [processArrH]⟩,
           fun d h fs => ⟨[], by simp [processFieldsH]⟩⟩
  | succ n ih =>
    obtain ⟨ihV, ihA, ihF⟩ := ih
    refine ⟨?_, ?_, ?_⟩
    · intro d h v
      cases v
      case ref a =>
        cases hn : h[a]? with
        | none => exact ⟨[], by simp [processObjectValuesH, hn]⟩
        | some node =>
          cases node with
          | arrN xs =>
            obtain ⟨t1, ht1⟩ := ihA d h xs
            rcases hr : processArrH d n h xs with ⟨h1, ys⟩
            have hh1 : h1 = h ++ t1 := by rw [hr] at ht1; exact ht1
            subst hh1
            cases ys with
            | some ys =>
              exact ⟨t1 ++ [HNode.arrN ys], by simp [processObjectValuesH, hn, hr]⟩
            | none => exact ⟨t1, by simp [processObjectValuesH, hn, hr]⟩
          | objN fs =>
            obtain ⟨t1, ht1⟩ := ihF d h fs
            rcases hr : processFieldsH d n h fs with ⟨h1, gs⟩
            have hh1 : h1 = h ++ t1 := by rw [hr] at ht1; exact ht1
            subst hh1
            cases gs with
            | some gs =>
              exact ⟨t1 ++ [HNode.objN gs], by simp [processObjectValuesH, hn, hr]⟩
            | none => exact ⟨t1, by simp [processObjectValuesH, hn, hr]⟩
      all_goals exact ⟨[], by simp [processObjectValuesH]⟩
    · intro d h xs
      cases xs with
      | nil => exact ⟨[], by simp [processArrH]⟩
      | cons x xs =>
        obtain ⟨t1, ht1⟩ := ihV d h x
        rcases h1eq : processObjectValuesH d n h x with ⟨h1, y⟩
        have hh1 : h1 = h ++ t1 := by rw [h1eq] at ht1; exact ht1
        subst hh1
        cases y with
        | none => exact ⟨t1, by simp [processArrH, h1eq]⟩
        | some y =>
          obtain ⟨t2, ht2⟩ := ihA d (h ++ t1) xs
          rcases h2eq : processArrH d n (h ++ t1) xs with ⟨h2, ys⟩
          have hh2 : h2 = h ++ t1 ++ t2 := by rw [h2eq] at ht2; exact ht2
          subst hh2
          cases ys with
          | some ys => exact ⟨t1 ++ t2, by simp [processArrH, h1eq, h2eq]⟩
          | none => exact ⟨t1 ++ t2, by simp [processArrH, h1eq, h2eq]⟩
    · intro d h fs
      cases fs with
      | nil => exact ⟨[], by simp [processFieldsH]⟩
      | cons kv fs =>
        rcases kv with ⟨k, v⟩
        cases v
        case ref a =>
          obtain ⟨t1, ht1⟩ := ihV d h (.ref a)
          rcases h1eq : processObjectValuesH d n h (.ref a) with ⟨h1, y⟩
          have hh1 : h1 = h ++ t1 := by rw [h1eq] at ht1; exact ht1
          subst hh1
          cases y with
          | none => exact ⟨t1, by simp [processFieldsH, h1eq]⟩
          | some y =>
            obtain ⟨t2, ht2⟩ := ihF d (h ++ t1) fs
            rcases h2eq : processFieldsH d n (h ++ t1) fs with ⟨h2, gs⟩
            have hh2 : h2 = h ++ t1 ++ t2 := by rw [h2eq] at ht2; exact ht2
            subst hh2
            cases gs with
            | some gs => exact ⟨t1 ++ t2, by simp [processFieldsH, h1eq, h2eq]⟩
            | none => exact ⟨t1 ++ t2, by simp [processFieldsH, h1eq, h2eq]⟩
        all_goals
          obtain ⟨t2, ht2⟩ := ihF d h fs
          rcases h2eq : processFieldsH d n h fs with ⟨h2, gs⟩
          have hh2 : h2 = h ++ t2 := by rw [h2eq] at ht2; exact ht2
          subst hh2
          cases gs with
          | some gs => exact ⟨t2, by simp [processFieldsH, h2eq]⟩
          | none => exact ⟨t2, by simp [processFieldsH, h2eq]⟩

/-- A heap lookup that succeeds still succeeds, with the same node, after
nodes are appended. -/
theorem getElem?_append_of_some {h t : Heap} {a : Nat} {node : HNode}
    (hx : h[a]? = some node) : (h ++ t)[a]? = some node := by
  have hlt : a < h.length := by
    cases hlt : decide (a < h.length) with
    | true => exact of_decide_eq_true hlt
    | false =>
      exfalso
      have : h.length ≤ a := Nat.le_of_not_lt (of_decide_eq_false hlt)
      rw [List.getElem?_eq_none this] at hx
      exact Option.noConfusion hx
  rw [List.getElem?_append_left hlt]
  exact hx

/-- Every reference the heap-level traversal returns points at or beyond
the end of the input heap: the result is freshly allocated, never an
existing node. -/
theorem processH_fresh (d : Int) (fuel : Nat) (h h2 : Heap) (v : HVal) (a : Nat)
    (hres : processObjectValuesH d fuel h v = (h2, some (.ref a))) : h.length ≤ a := by
  cases fuel with
  | zero => simp [processObjectValuesH] at hres
  | succ n =>
    cases v
    case ref b =>
      cases hn : h[b]? with
      | none => simp [processObjectValuesH, hn] at hres
      | some node =>
        cases node with
        | arrN xs =>
          obtain ⟨t1, ht1⟩ := (processH_frame n).2.1 d h xs
          rcases hr : processArrH d n h xs with ⟨h1, ys⟩
          have hh1 : h1 = h ++ t1 := by rw [hr] at ht1; exact ht1
          subst hh1
          cases ys with
          | some ys =>
            simp [processObjectValuesH, hn, hr] at hres
            obtain ⟨-, ha⟩ := hres
            rw [← ha]
            simp
          | none => simp [processObjectValuesH, hn, hr] at hres
        | objN fs =>
          obtain ⟨t1, ht1⟩ := (processH_frame n).2.2 d h fs
          rcases hr : processFieldsH d n h fs with ⟨h1, gs⟩
          have hh1 : h1 = h ++ t1 := by rw [hr] at ht1; exact ht1
          subst hh1
          cases gs with
          | some gs =>
            simp [processObjectValuesH, hn, hr] at hres
            obtain ⟨-, ha⟩ := hres
            rw [← ha]
            simp
          | none => simp [processObjectValuesH, hn, hr] at hres
    all_goals simp [processObjectValuesH] at hres

/-- Reading a value back is unaffected by nodes appended after the end of
the heap it was read from (for the value, array and field forms at once). -/
theorem readBackH_mono :
    ∀ fuel : Nat,
      (∀ (h t : Heap) (v : HVal) (x : JVal),
        readBackH fuel h v = some x → readBackH fuel (h ++ t) v = some x)
      ∧ (∀ (h t : Heap) (xs : List HVal) (ys : JArr),
        readBackArrH fuel h xs = some ys → readBackArrH fuel (h ++ t) xs = some ys)
      ∧ (∀ (h t : Heap) (fs : List (String × HVal)) (gs : JObj),
        readBackFieldsH fuel h fs = some gs → readBackFieldsH fuel (h ++ t) fs = some gs) := by
  intro fuel
  induction fuel with
  | zero =>
    refine ⟨?_, ?_, ?_⟩ <;> intro h t v x hx <;> simp [readBackH, readBackArrH, readBackFieldsH] at hx
  | succ n ih =>
    obtain ⟨ihV, ihA, ihF⟩ := ih
    refine ⟨?_, ?_, ?_⟩
    · intro h t v x hx
      cases v
      case ref a =>
        cases hn : h[a]? with
        | none => rw [readBackH, hn] at hx; exact Option.noConfusion hx
        | some node =>
          have hn' : (h ++ t)[a]? = some node := getElem?_append_of_some hn
          cases node with
          | arrN xs =>
            rw [readBackH, hn] at hx
            rcases Option.map_eq_some'.mp hx with ⟨ys, hys, hxeq⟩
            rw [readBackH, hn']
            exact show Option.map JVal.arr (readBackArrH n (h ++ t) xs) = some x by
              rw [ihA h t xs ys hys, Option.map_some']
              exact congrArg some hxeq
          | objN fs =>
            rw [readBackH, hn] at hx
            rcases Option.map_eq_some'.mp hx with ⟨gs, hgs, hxeq⟩
            rw [readBackH, hn']
            exact show Option.map JVal.obj (readBackFieldsH n (h ++ t) fs) = some x by
              rw [ihF h t fs gs hgs, Option.map_some']
              exact congrArg some hxeq
      all_goals simpa [readBackH] using hx
    · intro h t xs ys hx
      cases xs with
      | nil => simpa [readBackArrH] using hx
      | cons x xs =>
        rw [readBackArrH] at hx
        cases hy : readBackH n h x with
        | none => rw [hy] at hx; exact Option.noConfusion hx
        | some y =>
          cases hys : readBackArrH n h xs with
          | none => rw [hy, hys] at hx; exact Option.noConfusion hx
          | some ys1 =>
            rw [hy, hys] at hx
            rw [readBackArrH, ihV h t x y hy, ihA h t xs ys1 hys]
            exact hx
    · intro h t fs gs hx
      cases fs with
      | nil => simpa [readBackFieldsH] using hx
      | cons kv fs =>
        rcases kv with ⟨k, v⟩
        rw [readBackFieldsH] at hx
        cases hy : readBackH n h v with
        | none => rw [hy] at hx; exact Option.noConfusion hx
        | some y =>
          cases hgs : readBackFieldsH n h fs with
          | none => rw [hy, hgs] at hx; exact Option.noConfusion hx
          | some gs1 =>
            rw [hy, hgs] at hx
            rw [readBackFieldsH, ihV h t v y hy, ihF h t fs gs1 hgs]
            exact hx

/-- Claim C10: the normalizer never mutates its input. Heap-level: (1) a
run of the traversal only appends to the heap, every pre-existing node
staying in place; (2) primitives and null are returned as-is with the heap
untouched; (3) any array or object the traversal returns is a freshly
allocated node, at or beyond the old end of the heap; (4) consequently
every observation (read-back) of the pre-normalization structure that
succeeded before the run still yields the identical tree afterwards. -/
theorem C10_thm :
    (∀ (d : Int) (fuel : Nat) (h : Heap) (v : HVal),
      ∃ t, (processObjectValuesH d fuel h v).1 = h ++ t)
    ∧ (∀ (d : Int) (fuel : Nat) (h : Heap) (v : HVal),
      v.isRef = false → processObjectValuesH d (fuel + 1) h v = (h, some v))
    ∧ (∀ (d : Int) (fuel : Nat) (h h2 : Heap) (v : HVal) (a : Nat),
      processObjectValuesH d fuel h v = (h2, some (.ref a)) → h.length ≤ a)
    ∧ (∀ (d : Int) (fuel fuel2 : Nat) (h : Heap) (v w : HVal) (x : JVal),
      readBackH fuel2 h w = some x →
      readBackH fuel2 ((processObjectValuesH d fuel h v).1) w = some x) := by
  refine ⟨fun d fuel h v => (processH_frame fuel).1 d h v, ?_, ?_, ?_⟩
  · intro d fuel h v hv
    cases v <;> first
      | rfl
      | exact absurd hv (by simp [HVal.isRef])
  · exact fun d fuel h h2 v a hres => processH_fresh d fuel h h2 v a hres
  · intro d fuel fuel2 h v w x hx
    obtain ⟨t, ht⟩ := (processH_frame fuel).1 d h v
    rw [ht]
    exact (readBackH_mono fuel2).1 h t w x hx

/-- Claim C1, counterexample: with the primary energy call succeeding but
delivering an empty array, the LS120 fetcher does NOT propagate an error:
it returns a telemetry record holding only the timestamp and the model. -/
theorem C1_cex :
    fetchLS120Data { showNegativeCurrent := false } ("T") (.ok (.arr .nil)) (.error ())
        (fun _ => (""))
      = .ok { timestamp := ("T"), model := ("LS120") }
    ∧ fetchLS120Data { showNegativeCurrent := false } ("T") (.ok (.arr .nil)) (.error ())
        (fun _ => (""))
      ≠ .error () :=
  ⟨rfl, fun hcontra => Except.noConfusion hcontra⟩

/-- Claim C1, amended: the LS120 fetcher propagates an error exactly for a
transport failure of the primary energy call; a delivered body that is not
a non-empty array (empty array, or any non-array value such as an absent
body) instead yields a minimal record carrying only the timestamp and the
model, with every other field unset. -/
theorem C1_thm (cfg : NodeConfig) (ts : String) (phase : Except Unit JVal)
    (epochToIso : JVal → String) :
    fetchLS120Data cfg ts (.error ()) phase epochToIso = .error ()
    ∧ ∀ body : JVal, body.isNonEmptyArray = false →
        fetchLS120Data cfg ts (.ok body) phase epochToIso
          = .ok { timestamp := ts, model := ("LS120") } := by
  refine ⟨rfl, ?_⟩
  intro body hb
  cases body with
  | arr xs =>
    cases xs with
    | nil => rfl
    | cons x tl => simp [JVal.isNonEmptyArray] at hb
  | undefined => rfl
  | nan => rfl
  | null => rfl
  | bool b => rfl
  | num q => rfl
  | str s => rfl
  | obj fs => rfl

/-- Claim C8: an LS120 fetch whose primary energy response is the
one-element sequence [pwr -500, net 120.5, p1 10, p2 5, n1 0, n2 0] yields
power -500, isGenerating true, powerAbsolute 500, net 120.5, delivered
total 15 with tariffs 10 and 5, and returned all 0 (stated here with the
best-effort phase call failing, which the fetcher swallows). -/
theorem C8_thm (cfg : NodeConfig) (ts : String) (epochToIso : JVal → String) :
    fetchLS120Data cfg ts (.ok (.arr (.cons sampleEnergyFirst .nil))) (.error ()) epochToIso
      = .ok { timestamp := ts
              model := ("LS120")
              power := some (.num (-500))
              isGenerating := some true
              powerAbsolute := some (.num 500)
              net := some (.num (120.5))
              delivered := some { total := .num 15, tariff1 := .num 10, tariff2 := .num 5 }
              returned := some { total := .num 0, tariff1 := .num 0, tariff2 := .num 0 } } := by
  have hpwr : jGet sampleEnergyFirst ("pwr") = .num (-500) := rfl
  have hnet : jGet sampleEnergyFirst ("net") = .num (120.5) := rfl
  have hp1 : jGet sampleEnergyFirst ("p1") = .num 10 := rfl
  have hp2 : jGet sampleEnergyFirst ("p2") = .num 5 := rfl
  have hn1 : jGet sampleEnergyFirst ("n1") = .num 0 := rfl
  have hn2 : jGet sampleEnergyFirst ("n2") = .num 0 := rfl
  have hcs0 : jGet sampleEnergyFirst ("cs0") = .undefined := rfl
  have hgas : jGet sampleEnergyFirst ("gas") = .undefined := rfl
  have hwtr : jGet sampleEnergyFirst ("wtr") = .undefined := rfl
  have ht10 : jsTruthyOr (.num 10) (.num 0) = .num 10 := by norm_num [jsTruthyOr, truthy]
  have ht5 : jsTruthyOr (.num 5) (.num 0) = .num 5 := by norm_num [jsTruthyOr, truthy]
  have ht0 : jsTruthyOr (.num 0) (.num 0) = .num 0 := by norm_num [jsTruthyOr, truthy]
  have hadd : jsAdd (.num 10) (.num 5) = .num 15 := by norm_num [jsAdd]
  have hadd0 : jsAdd (.num 0) (.num 0) = .num 0 := by norm_num [jsAdd]
  have habs : jsAbs (.num (-500)) = .num 500 := by norm_num [jsAbs]
  have hneg : jsIsNeg (.num (-500)) = true := by
    simp only [jsIsNeg, decide_eq_true_eq]
    norm_num
  simp [fetchLS120Data, hpwr, hnet, hp1, hp2, hn1, hn2, hcs0, hgas, hwtr,
    ht10, ht5, ht0, hadd, hadd0, habs, hneg, JVal.isUndefined]

/-- The prober's first step, from the initial state, leaves exactly the
model, mac and confirmation that the step-1 predicates describe. -/
theorem pingStep1_init (d : Option HttpResp) :
    pingStep1 d pingInit
      = { model := dStepModel d, mac := dStepMac d, isYouLess := dStepConfirms d } := by
  cases d with
  | none => rfl
  | some r =>
    simp only [pingStep1, dStepModel, dStepMac, dStepConfirms, pingInit]
    cases hc : (decide (r.status = 200) && r.data.truthy) <;>
      cases hm : truthy (devDataGet r.data ("model")) <;>
        cases hmc : truthy (devDataGet r.data ("mac")) <;>
          simp [hc, hm, hmc]

/-- A confirmed state passes through the prober's second step untouched. -/
theorem pingStep2_of_confirmed (a : Option HttpResp) (s : PingState)
    (hs : s.isYouLess = true) : pingStep2 a s = s := by
  simp [pingStep2, hs]

/-- A confirmed state passes through the prober's third step untouched. -/
theorem pingStep3_of_confirmed (e : Option HttpResp) (s : PingState)
    (hs : s.isYouLess = true) : pingStep3 e s = s := by
  simp [pingStep3, hs]

/-- On an unconfirmed state, the second step classifies as LS110 exactly
when its check matches, and otherwise changes nothing. -/
theorem pingStep2_unconfirmed (a : Option HttpResp) (s : PingState)
    (hs : s.isYouLess = false) :
    pingStep2 a s
      = if ls110Matches a then { s with model := .str ("LS110"), isYouLess := true }
        else s := by
  simp [pingStep2, hs]

/-- On an unconfirmed state, the third step classifies as LS120 exactly
when its check matches, and otherwise changes nothing. -/
theorem pingStep3_unconfirmed (e : Option HttpResp) (s : PingState)
    (hs : s.isYouLess = false) :
    pingStep3 e s
      = if ls120Matches e then { s with model := .str ("LS120"), isYouLess := true }
        else s := by
  simp [pingStep3, hs]

/-- Claim C5: the prober evaluates its three classification steps in
order with first success winning. (1) When the model-info step confirms,
the result carries the model-info model and mac, whatever the LS110/LS120
responses are; (2) in that case the result does not depend on those
responses at all (the heuristics are not consulted); (3) when model-info
did not confirm and the LS110 check matches, the result is model "LS110"
independently of the LS120 response; (4) when only the LS120 check
matches, the result is model "LS120". -/
theorem C5_thm :
    (∀ (ip : String) (d a e : Option HttpResp) (rev : Option (List String)),
      dStepConfirms d = true →
      pingYouLess ip d a e rev
        = some { ip := ip, name := reverseName rev, model := dStepModel d, mac := dStepMac d })
    ∧ (∀ (ip : String) (d a a2 e e2 : Option HttpResp) (rev : Option (List String)),
      dStepConfirms d = true → pingYouLess ip d a e rev = pingYouLess ip d a2 e2 rev)
    ∧ (∀ (ip : String) (d a e e2 : Option HttpResp) (rev : Option (List String)),
      dStepConfirms d = false → ls110Matches a = true →
      pingYouLess ip d a e rev
          = some { ip := ip, name := reverseName rev, model := .str ("LS110"), mac := dStepMac d }
        ∧ pingYouLess ip d a e rev = pingYouLess ip d a e2 rev)
    ∧ (∀ (ip : String) (d a e : Option HttpResp) (rev : Option (List String)),
      dStepConfirms d = false → ls110Matches a = false → ls120Matches e = true →
      pingYouLess ip d a e rev
        = some { ip := ip, name := reverseName rev, model := .str ("LS120"), mac := dStepMac d }) := by
  refine ⟨?_, ?_, ?_, ?_⟩
  · intro ip d a e rev hd
    rw [pingYouLess, pingStep1_init d]
    rw [pingStep2_of_confirmed a _ (by simp [hd]), pingStep3_of_confirmed e _ (by simp [hd])]
    simp [hd]
  · intro ip d a a2 e e2 rev hd
    rw [pingYouLess, pingStep1_init d,
      pingStep2_of_confirmed a _ (by simp [hd]), pingStep3_of_confirmed e _ (by simp [hd])]
    rw [pingYouLess, pingStep1_init d,
      pingStep2_of_confirmed a2 _ (by simp [hd]), pingStep3_of_confirmed e2 _ (by simp [hd])]
  · intro ip d a e e2 rev hd ha
    have hstep2 : pingStep2 a { model := dStepModel d, mac := dStepMac d, isYouLess := dStepConfirms d }
        = { model := .str ("LS110"), mac := dStepMac d, isYouLess := true } := by
      rw [pingStep2_unconfirmed a _ (by simp [hd])]
      simp [ha]
    constructor
    · rw [pingYouLess, pingStep1_init d, hstep2, pingStep3_of_confirmed e _ rfl]
      rfl
    · rw [pingYouLess, pingStep1_init d, hstep2, pingStep3_of_confirmed e _ rfl]
      rw [pingYouLess, pingStep1_init d, hstep2, pingStep3_of_confirmed e2 _ rfl]
  · intro ip d a e rev hd ha he
    rw [pingYouLess, pingStep1_init d]
    rw [pingStep2_unconfirmed a _ (by simp [hd])]
    simp only [ha, if_false, Bool.false_eq_true]
    rw [pingStep3_unconfirmed e _ (by simp [hd])]
    simp [he, hd]

/-- Claim C9, counterexample: a host whose model-info body reports
model "Unknown" is returned with model "Unknown" — the placeholder value
CAN be present in a returned result, contradicting the claim that it
never is. -/
theorem C9_cex :
    pingYouLess ("10.0.0.9")
        (some { status := 200, data := .val (.obj (.cons ("model") (.str ("Unknown")) .nil)) })
        none none none
      = some { ip := ("10.0.0.9"), name := none, model := .str ("Unknown"), mac := .str ("") } :=
  rfl

/-- Claim C9, amended: every probe result the prober returns has a model
that is either the value of the model-info body's model field (when the
model-info step confirmed — a value that may itself be the string
"Unknown", or even a non-string) or one of the strings "LS110"/"LS120"
assigned by the heuristic that confirmed the host; the untouched initial
placeholder never flows to a result, since a result is only returned
after some step confirmed the host and set the model. -/
theorem C9_thm (ip : String) (d a e : Option HttpResp) (rev : Option (List String))
    (r : ProbeResult) (hres : pingYouLess ip d a e rev = some r) :
    (dStepConfirms d = true ∧ r.model = dStepModel d)
    ∨ r.model = .str ("LS110") ∨ r.model = .str ("LS120") := by
  cases hd : dStepConfirms d with
  | true =>
    rw [pingYouLess, pingStep1_init d,
      pingStep2_of_confirmed a _ (by simp [hd]), pingStep3_of_confirmed e _ (by simp [hd])] at hres
    simp [hd] at hres
    exact Or.inl ⟨rfl, by rw [← hres]⟩
  | false =>
    rw [pingYouLess, pingStep1_init d, pingStep2_unconfirmed a _ (by simp [hd])] at hres
    cases ha : ls110Matches a with
    | true =>
      rw [ha] at hres
      simp only [if_true] at hres
      rw [pingStep3_of_confirmed e _ rfl] at hres
      simp at hres
      exact Or.inr (Or.inl (by rw [← hres]))
    | false =>
      rw [ha] at hres
      simp only [Bool.false_eq_true, if_false] at hres
      rw [pingStep3_unconfirmed e _ (by simp [hd])] at hres
      cases he : ls120Matches e with
      | true =>
        rw [he] at hres
        simp only [if_true] at hres
        simp at hres
        exact Or.inr (Or.inr (by rw [← hres]))
      | false =>
        rw [he] at hres
        simp [hd] at hres

/-- Claim C9, witness: the amended theorem at a concrete model-info
response reporting model "LS120", where the prober's result indeed carries
that model-info model. -/
theorem C9_wit :
    (dStepConfirms
          (some { status := 200, data := .val (.obj (.cons ("model") (.str ("LS120")) .nil)) })
        = true
      ∧ (ProbeResult.mk ("1.2.3.4") none (.str ("LS120")) (.str (""))).model
        = dStepModel
            (some { status := 200, data := .val (.obj (.cons ("model") (.str ("LS120")) .nil)) }))
    ∨ (ProbeResult.mk ("1.2.3.4") none (.str ("LS120")) (.str (""))).model = .str ("LS110")
    ∨ (ProbeResult.mk ("1.2.3.4") none (.str ("LS120")) (.str (""))).model = .str ("LS120") :=
  C9_thm ("1.2.3.4")
    (some { status := 200, data := .val (.obj (.cons ("model") (.str ("LS120")) .nil)) })
    none none none
    (ProbeResult.mk ("1.2.3.4") none (.str ("LS120")) (.str ("")))
    rfl

/-- The counting loop from any start: the addresses up to 254 with
consecutive suffixes. -/
theorem scanIps_eq (base : String) :
    ∀ (k i : Nat), i + k = 255 →
      scanIps base i = (List.range k).map (fun j => base ++ ("." ) ++ toString (i + j)) := by
  intro k
  induction k with
  | zero =>
    intro i hi
    have hgt : ¬ i ≤ 254 := by omega
    rw [scanIps]
    simp [hgt]
  | succ n ih =>
    intro i hi
    have hle : i ≤ 254 := by omega
    rw [scanIps]
    simp only [hle, dif_pos, List.range_succ_eq_map, List.map_cons, List.map_map]
    congr 1
    · rw [ih (i + 1) (by omega)]
      refine List.map_congr_left fun j hj => ?_
      simp only [Function.comp]
      have : i + 1 + j = i + (j + 1) := by omega
      rw [this]

/-- The scan list per candidate is exactly the 254 addresses base.1 up to
base.254. -/
theorem buildScanList_eq :
    ∀ networks : List NetworkCandidate,
      buildScanList networks
        = networks.flatMap
            (fun n => (List.range 254).map (fun j => n.base ++ ("." ) ++ toString (1 + j))) := by
  intro networks
  induction networks with
  | nil => rfl
  | cons n rest ih =>
    rw [buildScanList, ih, List.flatMap_cons, scanIps_eq n.base 254 1 (by omega)]

/-- One candidate contributes exactly 254 addresses. -/
theorem scanIps_length (base : String) : (scanIps base 1).length = 254 := by
  rw [scanIps_eq base 254 1 (by omega)]
  simp

/-- Claim C6: discovery probes exactly the 254 addresses base.1 through
base.254 of every subnet candidate and returns exactly the non-absent
probe results: (1) the collected results are the filterMap of the prober
over the per-candidate address lists; (2) the scan list has 254 entries
per candidate; (3) every address base.i with i between 1 and 254 of every
candidate is probed; (4) a result is returned precisely when some probed
address produced it, so absent probes contribute no entry. The concurrent
fan-out and the join before returning are modelled by the traversal being
a total, deterministic pass over the same address list. -/
theorem C6_thm :
    (∀ (networks : List NetworkCandidate) (probe : String → Option ProbeResult),
      discoverYouLess networks probe
        = (networks.flatMap
            (fun n => (List.range 254).map (fun j => n.base ++ ("." ) ++ toString (1 + j)))).filterMap
            probe)
    ∧ (∀ networks : List NetworkCandidate,
      (buildScanList networks).length = 254 * networks.length)
    ∧ (∀ (networks : List NetworkCandidate) (n : NetworkCandidate) (i : Nat),
      n ∈ networks → 1 ≤ i → i ≤ 254 →
      (n.base ++ ("." ) ++ toString i) ∈ buildScanList networks)
    ∧ (∀ (networks : List NetworkCandidate) (probe : String → Option ProbeResult)
        (r : ProbeResult),
      r ∈ discoverYouLess networks probe
        ↔ ∃ a ∈ buildScanList networks, probe a = some r) := by
  refine ⟨?_, ?_, ?_, ?_⟩
  · intro networks probe
    rw [discoverYouLess, buildScanList_eq]
  · intro networks
    induction networks with
    | nil => rfl
    | cons n rest ih =>
      rw [buildScanList, List.length_append, scanIps_length, ih]
      simp only [List.length_cons]
      ring
  · intro networks n i hn h1 h254
    rw [buildScanList_eq]
    rw [List.mem_flatMap]
    refine ⟨n, hn, ?_⟩
    rw [List.mem_map]
    refine ⟨i - 1, ?_, ?_⟩
    · rw [List.mem_range]
      omega
    · have : 1 + (i - 1) = i := by omega
      rw [this]
  · intro networks probe r
    rw [discoverYouLess, List.mem_filterMap]

/-- The auto-stop invariant is inductive: every event preserves the
property that an error count at the ceiling implies a cleared interval. -/
theorem sessionStep_preserves (e : SessionEvent) (s : SessionState)
    (hs : MAX_ERRORS ≤ s.errorCount → s.intervalSet = false) :
    MAX_ERRORS ≤ (sessionStep e s).errorCount → (sessionStep e s).intervalSet = false := by
  cases e with
  | stop => intro _; rfl
  | start v =>
    simp only [sessionStep, startPolling]
    by_cases h1 : s.intervalSet = true
    · rw [if_pos h1]
      exact hs
    · simp only [Bool.not_eq_true] at h1
      simp only [h1]
      cases v with
      | true =>
        intro hcontra
        simp [MAX_ERRORS] at hcontra
      | false =>
        simp only [Bool.false_eq_true, if_false]
        exact hs
  | fetchDone o =>
    cases o with
    | invalidConfig => intro _; rfl
    | success =>
      intro hcontra
      simp [sessionStep, fetchDataStep, MAX_ERRORS] at hcontra
    | failure =>
      simp only [sessionStep, fetchDataStep]
      by_cases hceil : MAX_ERRORS ≤ s.errorCount + 1
      · simp [hceil]
      · simp [hceil]

/-- Claim C3: (1) in every reachable session state, an error count at or
past MAX_ERRORS (10) implies the recurring schedule is cancelled; (2) from
a polling state with error count 0, exactly MAX_ERRORS consecutive failed
cycles with no intervening success leave the session stopped with error
count MAX_ERRORS; (3) once the interval is cleared, no fetch completion
and no stop re-sets it — only an explicit start can. -/
theorem C3_thm :
    (∀ s : SessionState, Reachable s → MAX_ERRORS ≤ s.errorCount → s.intervalSet = false)
    ∧ (∀ s : SessionState, s.intervalSet = true → s.errorCount = 0 →
      (fetchDataStep .failure)^[MAX_ERRORS] s
        = { intervalSet := false, errorCount := MAX_ERRORS })
    ∧ (∀ (s : SessionState) (o : FetchOutcome), s.intervalSet = false →
      (fetchDataStep o s).intervalSet = false ∧ (stopPolling s).intervalSet = false) := by
  refine ⟨?_, ?_, ?_⟩
  · intro s hreach
    induction hreach with
    | init => intro hcontra; simp [initialState, MAX_ERRORS] at hcontra
    | step e hs ih => exact sessionStep_preserves e _ ih
  · intro s hset hcount
    have hseq : s = { intervalSet := true, errorCount := 0 } := by
      cases s
      simp_all
    rw [hseq]
    rfl
  · intro s o hset
    refine ⟨?_, rfl⟩
    cases o with
    | invalidConfig => rfl
    | success => exact hset
    | failure =>
      simp only [fetchDataStep]
      by_cases hceil : MAX_ERRORS ≤ s.errorCount + 1
      · simp [hceil]
      · simp [hceil]
        exact hset

/-- Claim C4: a single successful fetch cycle resets the error count to 0
(from any state, in particular any error count below MAX_ERRORS) while
leaving the schedule as it was, and an explicit start that actually enters
polling (interval not yet set, configuration valid) yields exactly the
polling state with error count 0. -/
theorem C4_thm :
    (∀ s : SessionState, s.errorCount < MAX_ERRORS →
      (fetchDataStep .success s).errorCount = 0
        ∧ (fetchDataStep .success s).intervalSet = s.intervalSet)
    ∧ (∀ s : SessionState, s.intervalSet = false →
      startPolling true s = { intervalSet := true, errorCount := 0 }) := by
  constructor
  · intro s _
    exact ⟨rfl, rfl⟩
  · intro s hset
    simp [startPolling, hset]

end YouLessSE
